import Mathlib

/-!
A shallow embedding of the movie-catalog search frontend (`app.js`) and of
the hybrid-search design that accompanies it.  Pure functions of the source
(`applyFilters`, `makeKey`, `escapeHtml`, the page slicing in `renderLocal`,
the fallback structure of `renderUsingApi`) are translated into Lean
definitions; JavaScript string primitives (`toLowerCase`,
`normalize('NFKD')`, the `\s` class, `trim`) are modelled per character for
the character set this development uses.
-/

namespace Subplot

/-- Models `String.prototype.toLowerCase` (ECMA-262 / Unicode default case
conversion) for the characters appearing in this development: the ASCII
letters A–Z map to a–z, and every other character modelled here (ASCII
non-letters, combining marks, and the caseless modifier letter U+1D2C) is
fixed by `toLowerCase`. -/
def jsToLower : Char → Char
  | 'A' => 'a' | 'B' => 'b' | 'C' => 'c' | 'D' => 'd' | 'E' => 'e'
  | 'F' => 'f' | 'G' => 'g' | 'H' => 'h' | 'I' => 'i' | 'J' => 'j'
  | 'K' => 'k' | 'L' => 'l' | 'M' => 'm' | 'N' => 'n' | 'O' => 'o'
  | 'P' => 'p' | 'Q' => 'q' | 'R' => 'r' | 'S' => 's' | 'T' => 't'
  | 'U' => 'u' | 'V' => 'v' | 'W' => 'w' | 'X' => 'x' | 'Y' => 'y'
  | 'Z' => 'z'
  | c => c

/-- Models `String.prototype.toUpperCase` on single characters, for the
`charAt(0).toUpperCase()` calls of `formatTheme`/`formatEmotionalTone`;
ASCII letters a–z map to A–Z, all other modelled characters are fixed. -/
def jsToUpper : Char → Char
  | 'a' => 'A' | 'b' => 'B' | 'c' => 'C' | 'd' => 'D' | 'e' => 'E'
  | 'f' => 'F' | 'g' => 'G' | 'h' => 'H' | 'i' => 'I' | 'j' => 'J'
  | 'k' => 'K' | 'l' => 'L' | 'm' => 'M' | 'n' => 'N' | 'o' => 'O'
  | 'p' => 'P' | 'q' => 'Q' | 'r' => 'R' | 's' => 'S' | 't' => 'T'
  | 'u' => 'U' | 'v' => 'V' | 'w' => 'W' | 'x' => 'X' | 'y' => 'Y'
  | 'z' => 'Z'
  | c => c

/-- Models `String.prototype.normalize('NFKD')` as a per-character
compatibility decomposition, for the characters of this development:
ASCII characters are NFKD-invariant, and U+1D2C MODIFIER LETTER CAPITAL A
('ᴬ', compatibility decomposition `<super> 0041`) decomposes to `A`. -/
def jsNFKD (c : Char) : List Char :=
  if c = 'ᴬ' then ['A'] else [c]

/-- The combining diacritical marks range U+0300–U+036F stripped by
`makeKey`'s `replace(/[̀-ͯ]/g, '')`. -/
def isCombiningMark (c : Char) : Bool :=
  0x300 ≤ c.toNat && c.toNat ≤ 0x36F

/-- The JavaScript regular-expression class `\s` (ECMA-262 WhiteSpace ∪
LineTerminator), as matched by `replace(/\s+/g, ' ')` and removed at the
ends by `String.prototype.trim`. -/
def isJsWs (c : Char) : Bool :=
  (0x9 ≤ c.toNat && c.toNat ≤ 0xD) || c = ' ' || c.toNat = 0xA0 ||
  c.toNat = 0x1680 || (0x2000 ≤ c.toNat && c.toNat ≤ 0x200A) ||
  c.toNat = 0x2028 || c.toNat = 0x2029 || c.toNat = 0x202F ||
  c.toNat = 0x205F || c.toNat = 0x3000 || c.toNat = 0xFEFF

/-- No two adjacent whitespace characters (the shape invariant of
`replace(/\s+/g, ' ')` output). -/
def NoWsPair (a b : Char) : Prop :=
  ¬(isJsWs a = true ∧ isJsWs b = true)

/-- Models `replace(/\s+/g, ' ')`: every maximal run of `\s` characters is
replaced by a single space.  (Each run contributes one `' '`, emitted at the
run's last character.) -/
def collapseWs : List Char → List Char
  | [] => []
  | [c] => if isJsWs c then [' '] else [c]
  | a :: b :: rest =>
    if isJsWs a && isJsWs b then collapseWs (b :: rest)
    else (if isJsWs a then ' ' else a) :: collapseWs (b :: rest)

/-- Models `String.prototype.trim`: strips `\s` characters from both ends. -/
def trimWs (l : List Char) : List Char :=
  (((l.dropWhile isJsWs).reverse.dropWhile isJsWs)).reverse

/-- `makeKey` from `app.js`:
`String(title||'').toLowerCase().normalize('NFKD')
  .replace(/[̀-ͯ]/g,'').replace(/\s+/g,' ').trim()`. -/
def makeKeyL (l : List Char) : List Char :=
  trimWs (collapseWs (((l.map jsToLower).flatMap jsNFKD).filter
    (fun c => !isCombiningMark c)))

/-- String-level `makeKey`. -/
def makeKey (s : String) : String :=
  ⟨makeKeyL s.data⟩

/-- `toLowerCase` on whole strings. -/
def jsStrLower (s : String) : String :=
  ⟨s.data.map jsToLower⟩

/-- A movie object as stored in `state.data` (the output shape of
`normalizeMovie`): exactly the fields `applyFilters` reads, all present. -/
structure Movie where
  title : String := ""
  card_description : String := ""
  pacing_style : String := ""
  energy_level : String := ""
  visual_aesthetic : String := ""
  target_audience : String := ""
  narrative_structure : String := ""
  profile_text : String := ""
  emotional_tone : List String := []
  themes : List String := []
  similar_films : List String := []
  cultural_context : List String := []
  discussion_topics : List String := []
deriving DecidableEq, Repr

/-- The haystack built inside `applyFilters`:
`[m.title, …, m.profile_text, ...m.emotional_tone, …].join(' ').toLowerCase()`,
as a character list. -/
def hayOf (m : Movie) : List Char :=
  (jsStrLower (String.intercalate " "
    ([m.title, m.pacing_style, m.energy_level, m.visual_aesthetic,
      m.target_audience, m.narrative_structure, m.profile_text]
     ++ m.emotional_tone ++ m.themes ++ m.similar_films
     ++ m.cultural_context ++ m.discussion_topics))).data

/-- The per-movie predicate of `applyFilters`: the `if (q)` substring test
(`hay.includes(q)`), then the tone AND-filter, then the theme AND-filter. -/
def filterPred (q : String) (tones themes : List String) (m : Movie) : Bool :=
  (q == "" || decide (q.data <:+: hayOf m)) &&
  tones.all (fun t => m.emotional_tone.contains t) &&
  themes.all (fun t => m.themes.contains t)

/-- `applyFilters(arr)` from `app.js`, with the pieces of mutable state it
reads (`state.search`, `state.filterTones`, `state.filterThemes`) passed
explicitly.  The JS `Set`s are passed as their insertion-order element
lists. -/
def applyFilters (arr : List Movie) (q : String) (tones themes : List String) :
    List Movie :=
  arr.filter (filterPred q tones themes)

/-- The pagination of `renderLocal`: `pages = max(1, ceil(total/pageSize))`,
`if (page > pages) page = pages`, `start = (page-1)*pageSize`,
`filtered.slice(start, start + pageSize)`. -/
def renderLocalSlice (data : List Movie) (q : String) (tones themes : List String)
    (page pageSize : Nat) : List Movie :=
  let filtered := applyFilters data q tones themes
  let total := filtered.length
  let pages := max 1 ((total + pageSize - 1) / pageSize)
  let page' := if page > pages then pages else page
  let start := (page' - 1) * pageSize
  (filtered.drop start).take pageSize

/-- The request URL built by `renderUsingApi`:
`${base}/search?q=${encodeURIComponent(state.search)}&limit=${state.pageSize}&mode=hybrid`.
`encodeURIComponent` is passed as an opaque-to-the-theorem encoder
argument `enc`. -/
def buildSearchUrl (enc : String → String) (base q : String) (pageSize : Nat) :
    String :=
  base ++ "/search?q=" ++ enc q ++ "&limit=" ++ toString pageSize ++
    "&mode=hybrid"

/-- `escapeHtml` from `app.js`, per character:
`replace(/[&<>"']/g, c => ({'&':'&amp;','<':'&lt;','>':'&gt;','"':'&quot;',"'":'&#039;'})[c])`. -/
def escapeHtmlChar (c : Char) : List Char :=
  if c = '&' then ['&', 'a', 'm', 'p', ';']
  else if c = '<' then ['&', 'l', 't', ';']
  else if c = '>' then ['&', 'g', 't', ';']
  else if c = '"' then ['&', 'q', 'u', 'o', 't', ';']
  else if c = '\'' then ['&', '#', '0', '3', '9', ';']
  else [c]

/-- `escapeHtml` on whole strings (`String(s ?? '')` then the global
replacement). -/
def escapeHtml (s : String) : String :=
  ⟨s.data.flatMap escapeHtmlChar⟩

/-! ## Raw JSON movie objects and `normalizeMovie` -/

/-- A raw movie object as parsed from a dataset JSON file: any field may be
absent (`none` models JavaScript `undefined`).  Restricted to the fields
read by the operations embedded here. -/
structure MovieObj where
  title : Option String := none
  Title : Option String := none
  primary_emotional_tone : Option String := none
  secondary_emotional_tone : Option String := none
  primary_theme : Option String := none
  secondary_theme : Option String := none
  card_description : Option String := none
  pacing_style : Option String := none
  energy_level : Option String := none
  visual_aesthetic : Option String := none
  target_audience : Option String := none
  narrative_structure : Option String := none
  profile_text : Option String := none
  emotional_tone : Option (List String) := none
  themes : Option (List String) := none
  similar_films : Option (List String) := none
  cultural_context : Option (List String) := none
  discussion_topics : Option (List String) := none
deriving DecidableEq, Repr

/-- JavaScript `a || b` on a possibly-absent string: `undefined` and the
empty string are falsy. -/
def jsOrS (a : Option String) (b : String) : String :=
  match a with
  | some s => if s == "" then b else s
  | none => b

/-- `toArray` from `app.js`: `if (!v) return []` then
`v.filter(Boolean).map(String)` (inputs modelled as string arrays). -/
def toArray (v : Option (List String)) : List String :=
  match v with
  | some l => l.filter (fun s => !(s == ""))
  | none => []

/-- `tone.charAt(0).toUpperCase() + tone.slice(1)`. -/
def jsCapitalize (s : String) : String :=
  match s.data with
  | [] => ""
  | c :: cs => ⟨jsToUpper c :: cs⟩

/-- The `validTones` table of `formatEmotionalTone`. -/
def validTones : List String :=
  ["dramatic", "dark", "romantic", "contemplative", "melancholic", "tense",
   "uplifting", "comedic", "intense", "mysterious", "suspenseful", "thrilling",
   "heartwarming", "poignant", "nostalgic", "reflective", "energetic", "epic",
   "heroic", "inspirational", "lighthearted", "whimsical", "surreal",
   "mystical", "transformative", "action-packed", "adventurous",
   "psychological", "existential"]

/-- `formatEmotionalTone` from `app.js`: `null` for falsy/`'none'` input,
capitalize a known tone, drop underscore-bearing (theme-like) values,
capitalize anything else. -/
def formatEmotionalTone (t : Option String) : Option String :=
  match t with
  | none => none
  | some t =>
    if t == "" || t == "none" then none
    else if validTones.contains (jsStrLower t) then some (jsCapitalize t)
    else if t.data.contains '_' then none
    else some (jsCapitalize t)

/-- `formatTheme` from `app.js`: `null` for falsy/`'none'` input, else
`split('_').map(capitalize).join(' ')`. -/
def formatTheme (t : Option String) : Option String :=
  match t with
  | none => none
  | some t =>
    if t == "" || t == "none" then none
    else some (String.intercalate " " ((t.splitOn "_").map jsCapitalize))

/-- `normalizeMovie` from `app.js`, restricted to the fields of `Movie`:
every output field is present — absent strings become `''`
(`String(x ?? '')`), absent arrays become `[]` (`toArray`), and
`emotional_tone`/`themes` are derived from the primary/secondary raw fields
through the format functions and the `t && t !== 'none'` filter. -/
def normalizeMovie (obj : MovieObj) : Movie :=
  { title := jsOrS obj.title (jsOrS obj.Title "Untitled")
    card_description := obj.card_description.getD ""
    pacing_style := obj.pacing_style.getD ""
    energy_level := obj.energy_level.getD ""
    visual_aesthetic := obj.visual_aesthetic.getD ""
    target_audience := obj.target_audience.getD ""
    narrative_structure := obj.narrative_structure.getD ""
    profile_text := obj.profile_text.getD ""
    emotional_tone :=
      ([formatEmotionalTone obj.primary_emotional_tone,
        formatEmotionalTone obj.secondary_emotional_tone].filterMap id).filter
        (fun t => !(t == "") && !(t == "none"))
    themes :=
      ([formatTheme obj.primary_theme,
        formatTheme obj.secondary_theme].filterMap id).filter
        (fun t => !(t == "") && !(t == "none"))
    similar_films := toArray obj.similar_films
    cultural_context := toArray obj.cultural_context
    discussion_topics := toArray obj.discussion_topics }

/-- The JS object a normalized `Movie` presents to `applyFilters`: all the
fields `applyFilters` touches are present. -/
def toObj (m : Movie) : MovieObj :=
  { title := some m.title
    card_description := some m.card_description
    pacing_style := some m.pacing_style
    energy_level := some m.energy_level
    visual_aesthetic := some m.visual_aesthetic
    target_audience := some m.target_audience
    narrative_structure := some m.narrative_structure
    profile_text := some m.profile_text
    emotional_tone := some m.emotional_tone
    themes := some m.themes
    similar_films := some m.similar_films
    cultural_context := some m.cultural_context
    discussion_topics := some m.discussion_topics }

/-- The haystack expression of `applyFilters` evaluated on a raw object
with JavaScript semantics: spreading an absent array field
(`...m.emotional_tone`) throws (`none`), while absent string fields are
rendered as `''` by `Array.prototype.join`. -/
def hayObjOf (m : MovieObj) : Option (List Char) := do
  let et ← m.emotional_tone
  let th ← m.themes
  let sf ← m.similar_films
  let cc ← m.cultural_context
  let dt ← m.discussion_topics
  pure ((jsStrLower (String.intercalate " "
    (([m.title, m.pacing_style, m.energy_level, m.visual_aesthetic,
       m.target_audience, m.narrative_structure,
       m.profile_text].map (fun f => f.getD ""))
     ++ et ++ th ++ sf ++ cc ++ dt))).data)

/-- The `applyFilters` callback evaluated with JavaScript semantics on a
raw object: `none` models a thrown `TypeError` (spreading or calling
`.includes` on an absent field); the guards `if (q)` / `if (toneSet.size)` /
`if (themeSet.size)` and the early `return false` are kept, so absent
fields are only touched when the corresponding check runs. -/
def filterPredObj (q : String) (tones themes : List String) (m : MovieObj) :
    Option Bool := do
  let searchOk ←
    if q == "" then pure true
    else do
      let hay ← hayObjOf m
      pure (decide (q.data <:+: hay))
  if !searchOk then pure false else do
  let toneOk ←
    if tones.isEmpty then pure true
    else do
      let et ← m.emotional_tone
      pure (tones.all (fun t => et.contains t))
  if !toneOk then pure false else
  if themes.isEmpty then pure true
  else do
    let ths ← m.themes
    pure (themes.all (fun t => ths.contains t))

/-- `Array.prototype.filter` with a callback that may throw: the elements
are visited left to right and a `none` from the callback aborts the whole
call. -/
def filterO (p : α → Option Bool) : List α → Option (List α)
  | [] => some []
  | a :: as => do
    let b ← p a
    let rest ← filterO p as
    pure (if b then a :: rest else rest)

/-- `applyFilters` on raw objects under JavaScript evaluation. -/
def applyFiltersObj (arr : List MovieObj) (q : String)
    (tones themes : List String) : Option (List MovieObj) :=
  filterO (filterPredObj q tones themes) arr

/-! ## The API render path (`renderUsingApi`) -/

/-- One entry of the `/search` response's `results` array, with the fields
`renderUsingApi` reads (`debug.kw_rank`/`debug.vec_rank` flattened). -/
structure ApiResult where
  title : String
  badges : List String := []
  snippet : Option String := none
  why_pretty : Option String := none
  why : Option String := none
  kw_rank : Option Nat := none
  vec_rank : Option Nat := none
deriving DecidableEq, Repr

/-- The parsed `/search` HTTP response: `res.ok` plus `data.results`. -/
structure ApiResponse where
  ok : Bool
  results : List ApiResult := []
deriving DecidableEq, Repr

/-- The outcome of `fetch(url)` + `res.json()`: either some exception
(network failure, JSON failure) or a parsed response. -/
inductive FetchOutcome where
  | fail (msg : String)
  | success (resp : ApiResponse)
deriving DecidableEq, Repr

/-- JavaScript truthiness of a possibly-absent string. -/
def jsTruthyS (o : Option String) : Bool :=
  match o with
  | some s => !(s == "")
  | none => false

/-- JavaScript truthiness of a possibly-absent number (0 is falsy). -/
def jsTruthyN (o : Option Nat) : Bool :=
  match o with
  | some n => !(n == 0)
  | none => false

/-- `String.prototype.trim` on strings. -/
def jsTrimStr (s : String) : String :=
  ⟨trimWs s.data⟩

/-- The `byKey` map of `renderUsingApi`:
`new Map(state.data.map(m => [makeKey(m.title), m]))` — for duplicate keys
the last entry wins, so lookup scans from the end. -/
def byKeyGet (data : List Movie) (k : String) : Option Movie :=
  data.reverse.find? (fun m => makeKey m.title == k)

/-- The `_why` fallback composed from badges, snippet and provenance when
the backend provides neither `why_pretty` nor `why`. -/
def composeWhy (r : ApiResult) : String :=
  let pv := (if jsTruthyN r.kw_rank then ["kw#" ++ toString (r.kw_rank.getD 0)]
             else [])
         ++ (if jsTruthyN r.vec_rank then ["vec#" ++ toString (r.vec_rank.getD 0)]
             else [])
  let whyParts :=
    (if r.badges.isEmpty then []
     else ["Badges: " ++ String.intercalate " • " r.badges])
    ++ (if jsTruthyS r.snippet then ["Why: " ++ r.snippet.getD ""] else [])
    ++ (if pv.isEmpty then [] else ["Via: " ++ String.intercalate ", " pv])
  String.intercalate " — " whyParts

/-- The clone rendered for one API result: a local movie (or a stub
normalized from the bare title) with the `_why` annotation attached. -/
structure ApiMovie where
  movie : Movie
  whyNote : Option String := none
deriving DecidableEq, Repr

/-- The per-result mapping of `renderUsingApi`: look the title up in the
local catalog (falling back to `normalizeMovie({title})`), attach `_why`
only when the clone has no existing description, and surface the badges
among the clone's themes via `[...new Set([...badges, ...themes])]`. -/
def mapApiResult (data : List Movie) (r : ApiResult) : ApiMovie :=
  let m := (byKeyGet data (makeKey r.title)).getD
    (normalizeMovie { title := some r.title })
  let hasExistingDescription :=
    !(jsTrimStr m.card_description == "") || !(jsTrimStr m.profile_text == "")
  let whyNote :=
    if hasExistingDescription then none
    else if jsTruthyS r.why_pretty then some (r.why_pretty.getD "")
    else if jsTruthyS r.why then some (r.why.getD "")
    else some (composeWhy r)
  { movie := { m with themes := (r.badges ++ m.themes).eraseDups }
    whyNote := whyNote }

/-- What a render pass puts into the cards container: plain local cards
(`renderLocal`) or API clones (`renderUsingApi`). -/
inductive RenderOut where
  | localCards (movies : List Movie)
  | apiCards (movies : List ApiMovie)
deriving DecidableEq, Repr

/-- `renderUsingApi` with the fetch outcome passed explicitly: the whole
body sits in a `try`; a fetch/JSON failure or a non-ok status
(`if (!res.ok) throw …`) lands in the `catch`, which falls back to
`renderLocal()`.  A parsed ok response renders the mapped results. -/
def renderUsingApiM (data : List Movie) (q : String)
    (tones themes : List String) (page pageSize : Nat)
    (outcome : FetchOutcome) : RenderOut :=
  match outcome with
  | .fail _ =>
    .localCards (renderLocalSlice data q tones themes page pageSize)
  | .success resp =>
    if resp.ok then .apiCards (resp.results.map (mapApiResult data))
    else .localCards (renderLocalSlice data q tones themes page pageSize)

/-- `render()` from `app.js`: `useApi = !!base && !!state.search`; API mode
when a base URL is configured and a search is active, local mode
otherwise.  `base` is the already-normalized API base. -/
def renderM (data : List Movie) (base q : String)
    (tones themes : List String) (page pageSize : Nat)
    (outcome : FetchOutcome) : RenderOut :=
  if !(base == "") && !(q == "") then
    renderUsingApiM data q tones themes page pageSize outcome
  else
    .localCards (renderLocalSlice data q tones themes page pageSize)

/-! ## The hybrid-search design (modelled from the spec)

The BM25 / RRF / intent-parser engine of the spec is present in the
repository only as design documents; the definitions below follow the
spec's words. -/

/-- Modelled from the spec: the Reciprocal Rank Fusion contribution of one
source list — `1 / (k + rankInThatList)` when the candidate appears there,
and zero ("absence from a list contributes zero, not a penalty").  The
missing code is the Fusion & Rank Aggregator (§4.5). -/
def rrfContrib (k : ℚ) : Option Nat → ℚ
  | none => 0
  | some r => 1 / (k + (r : ℚ))

/-- Modelled from the spec: the fused RRF score of a candidate, summed over
the keyword and semantic source lists (§4.5). -/
def rrfScore (k : ℚ) (kwRank vecRank : Option Nat) : ℚ :=
  rrfContrib k kwRank + rrfContrib k vecRank

/-- Candidate ranks `a` dominate ranks `b` in one source list: wherever `b`
appears, `a` also appears with a rank at least as good (numerically no
larger). -/
def RankDominates (a b : Option Nat) : Prop :=
  ∀ rb, b = some rb → ∃ ra, a = some ra ∧ ra ≤ rb

/-- Modelled from the spec: a movie record of the search engine's data
model (§3), restricted to the fields the intent-filter claims touch. -/
structure SpecMovie where
  id : String
  title : String
  genres : List String := []
  tags : List String := []
deriving DecidableEq, Repr

/-- Modelled from the spec: a `ParsedIntent` (§3), restricted to genre
inclusion/exclusion. -/
structure ParsedIntent where
  genres : List String := []
  excludedGenres : List String := []
deriving DecidableEq, Repr

/-- Modelled from the spec: the genre lookup table of the Intent Parser
(§4.3, "named genre words → included genre via a lookup table"). -/
def genreTable : List String :=
  ["action", "animation", "comedy", "documentary", "drama", "fantasy",
   "horror", "musical", "romance", "sci-fi", "thriller", "western"]

/-- A query-token character: letters and digits are kept, `-` survives so
hyphenated genres like `sci-fi` stay one token; everything else is
punctuation to be stripped (§4.1). -/
def isTokenChar (c : Char) : Bool :=
  c.isAlphanum || c = '-'

/-- Splits a character list on spaces (structural helper for the
normalizer's "splits on whitespace"). -/
def splitSp (l : List Char) : List (List Char) :=
  l.foldr
    (fun c acc =>
      if c = ' ' then [] :: acc
      else
        match acc with
        | [] => [[c]]
        | t :: ts => (c :: t) :: ts)
    []

/-- Modelled from the spec: the Text Normalizer applied to a query (§4.1)
— lowercase, strip punctuation, split on whitespace.  The missing code is
the Text Normalizer. -/
def tokenizeQuery (s : String) : List String :=
  (((splitSp ((s.data.map jsToLower).map
      (fun c => if isTokenChar c then c else ' '))).filter
    (fun t => !t.isEmpty)).map (fun t => (⟨t⟩ : String)))

/-- Modelled from the spec: the exclusion patterns of the Intent Parser —
`"no X" / "not X"` marks genre `X` as excluded (§4.3). -/
def excludedOf : List String → List String
  | a :: b :: rest =>
    if (a == "no" || a == "not") && genreTable.contains b then
      b :: excludedOf (b :: rest)
    else excludedOf (b :: rest)
  | _ => []

/-- Modelled from the spec: `parseIntent(rawQuery) -> ParsedIntent` (§4.3),
restricted to genres.  Exclusion patterns are evaluated before inclusion
patterns, so an excluded genre is not also added as included. -/
def parseIntent (q : String) : ParsedIntent :=
  let toks := tokenizeQuery q
  let excluded := excludedOf toks
  { genres := (toks.filter (fun t => genreTable.contains t)).filter
      (fun g => !(excluded.contains g))
    excludedGenres := excluded }

/-- Modelled from the spec: a record's derived `searchText` (§3). -/
def searchTextOf (m : SpecMovie) : String :=
  jsStrLower (String.intercalate " " (m.title :: m.genres ++ m.tags))

/-- Modelled from the spec: keyword candidate retrieval — records matching
some query token in their `searchText` (§4.2, simplified ranking; only
candidate membership matters to the filter claims). -/
def keywordCandidates (catalog : List SpecMovie) (toks : List String) :
    List SpecMovie :=
  catalog.filter (fun m => toks.any (fun t => decide (t.data <:+: (searchTextOf m).data)))

/-- Modelled from the spec: the orchestrator's hard-filter step (§4.7) —
genre inclusions are additive constraints and excluded genres are removed. -/
def applyIntentFilters (intent : ParsedIntent) (l : List SpecMovie) :
    List SpecMovie :=
  l.filter (fun m =>
    intent.genres.all (fun g => m.genres.contains g) &&
    intent.excludedGenres.all (fun g => !(m.genres.contains g)))

/-- Modelled from the spec: the Search Orchestrator for keyword-only mode
(§4.7) — parse intent, retrieve candidates, then apply the hard filters
strictly after retrieval. -/
def specSearch (catalog : List SpecMovie) (q : String) : List SpecMovie :=
  applyIntentFilters (parseIntent q) (keywordCandidates catalog (tokenizeQuery q))

/-! ## Concrete sample inputs -/

/-- A sample normalized catalog entry. -/
def sampleMovie : Movie :=
  { title := "Alpha", emotional_tone := ["Dark", "Tense"],
    themes := ["Identity"] }

/-- A second sample catalog entry. -/
def sampleMovie2 : Movie :=
  { title := "Beta", profile_text := "a quiet heist story",
    emotional_tone := ["Tense"], themes := ["Found Family"] }

/-- Scenario C, the sci-fi-only movie. -/
def scMovieA : SpecMovie :=
  { id := "a", title := "Alpha", genres := ["sci-fi"], tags := ["space"] }

/-- Scenario C, the movie tagged both sci-fi and horror. -/
def scMovieB : SpecMovie :=
  { id := "b", title := "Beta", genres := ["sci-fi", "horror"],
    tags := ["space", "scary"] }

end Subplot

namespace Subplot

/-! ## Helper lemmas -/

/-- `List.all` only depends on the elements: permuting the list preserves
it. -/
theorem all_congr_of_perm {l₁ l₂ : List α} (h : l₁.Perm l₂) (p : α → Bool) :
    l₁.all p = l₂.all p := by
  rw [Bool.eq_iff_iff, List.all_eq_true, List.all_eq_true]
  exact ⟨fun hp x hx => hp x (h.mem_iff.mpr hx),
         fun hp x hx => hp x (h.mem_iff.mp hx)⟩

/-- The RRF contribution of a list is nonnegative when `k > 0`. -/
theorem rrfContrib_nonneg {k : ℚ} (hk : 0 < k) (a : Option Nat) :
    0 ≤ rrfContrib k a := by
  cases a with
  | none => simp [rrfContrib]
  | some r =>
    have : (0 : ℚ) < k + r := by positivity
    simp only [rrfContrib]
    positivity

/-- The RRF contribution is monotone in rank domination. -/
theorem rrfContrib_mono {k : ℚ} (hk : 0 < k) {a b : Option Nat}
    (h : RankDominates a b) : rrfContrib k b ≤ rrfContrib k a := by
  cases b with
  | none => simpa [rrfContrib] using rrfContrib_nonneg hk a
  | some rb =>
    obtain ⟨ra, hra, hle⟩ := h rb rfl
    subst hra
    simp only [rrfContrib]
    have h1 : (0 : ℚ) < k + ra := by positivity
    have h2 : (k + (ra : ℚ)) ≤ k + rb := by
      have : (ra : ℚ) ≤ rb := by exact_mod_cast hle
      linarith
    exact one_div_le_one_div_of_le h1 h2

/-! ## C1 -/

/-- C1 counterexample: with an empty search string, an empty filter state
and a one-movie catalog, `applyFilters` returns the whole catalog — the
result set of an empty query is not empty. -/
theorem applyFilters_empty_query_not_empty :
    applyFilters [sampleMovie] "" [] [] ≠ [] := by decide

/-- C1 (amended): with an empty query, `applyFilters` does not restrict by
search text at all — it returns every movie passing the selected tone and
theme filters, and in particular the entire catalog when no filters are
selected (no error, but not an empty result set). -/
theorem applyFilters_empty_query (arr : List Movie) (tones themes : List String) :
    applyFilters arr "" tones themes =
      arr.filter (fun m => tones.all (fun t => m.emotional_tone.contains t) &&
        themes.all (fun t => m.themes.contains t)) ∧
    applyFilters arr "" [] [] = arr := by
  constructor
  · apply List.filter_congr
    intro m _
    simp [filterPred]
  · simp [applyFilters, filterPred]

/-! ## C2 -/

/-- C2: the page rendered by `renderLocal` holds at most `pageSize` cards
(`filtered.slice(start, start + pageSize)`), and the `/search` request
issued by `renderUsingApi` carries that same page size as its `limit`
parameter. -/
theorem renderLocal_page_bounded :
    (∀ (data : List Movie) (q : String) (tones themes : List String)
       (page pageSize : Nat),
       (renderLocalSlice data q tones themes page pageSize).length ≤ pageSize) ∧
    (∀ (enc : String → String) (base q : String) (pageSize : Nat),
       ∃ pre post, buildSearchUrl enc base q pageSize =
         pre ++ "&limit=" ++ toString pageSize ++ post) := by
  constructor
  · intro data q tones themes page pageSize
    exact List.length_take_le _ _
  · intro enc base q pageSize
    exact ⟨base ++ "/search?q=" ++ enc q, "&mode=hybrid", rfl⟩

/-! ## C3 -/

/-- C3: the local search is deterministic — `applyFilters` is a pure
function of the catalog array, the search string and the contents of the
two filter sets; two runs on equal catalogs and queries and on filter sets
holding the same elements (in any insertion order) produce identical output
lists. -/
theorem applyFilters_deterministic (arr₁ arr₂ : List Movie) (q₁ q₂ : String)
    (t₁ t₂ th₁ th₂ : List String)
    (harr : arr₁ = arr₂) (hq : q₁ = q₂) (ht : t₁.Perm t₂) (hth : th₁.Perm th₂) :
    applyFilters arr₁ q₁ t₁ th₁ = applyFilters arr₂ q₂ t₂ th₂ := by
  subst harr hq
  apply List.filter_congr
  intro m _
  simp only [filterPred]
  rw [all_congr_of_perm ht, all_congr_of_perm hth]

/-- C3 witness: two concrete runs with the tone set presented in two
insertion orders agree. -/
theorem applyFilters_deterministic_witness :
    applyFilters [sampleMovie, sampleMovie2] "alpha" ["Dark", "Tense"] [] =
      applyFilters [sampleMovie, sampleMovie2] "alpha" ["Tense", "Dark"] [] :=
  applyFilters_deterministic _ _ _ _ _ _ _ _ rfl rfl
    (List.Perm.swap _ _ _) (List.Perm.refl _)

/-! ## C4 -/

/-- C4: a failing search backend is never surfaced as a hard failure — if
the `/search` fetch throws or returns a non-ok status, `renderUsingApi`
falls back to the local keyword search and renders exactly the local
results for the same query, catalog and filter state. -/
theorem renderUsingApi_fallback (data : List Movie) (q : String)
    (tones themes : List String) (page pageSize : Nat) :
    (∀ msg, renderUsingApiM data q tones themes page pageSize (.fail msg) =
      .localCards (renderLocalSlice data q tones themes page pageSize)) ∧
    (∀ results, renderUsingApiM data q tones themes page pageSize
        (.success { ok := false, results := results }) =
      .localCards (renderLocalSlice data q tones themes page pageSize)) := by
  exact ⟨fun _ => rfl, fun _ => by simp [renderUsingApiM]⟩

/-! ## C7 -/

/-- C7: Reciprocal Rank Fusion is monotonic — a candidate whose ranks
dominate another's in both source lists (present wherever the other is,
with a numerically no-worse rank) never receives a lower fused score; in
particular a movie ranked #1 in both lists scores at least as high as any
movie appearing in a single list with a numerically worse rank there. -/
theorem rrf_monotonic (k : ℚ) (hk : 0 < k) :
    (∀ kwA vecA kwB vecB, RankDominates kwA kwB → RankDominates vecA vecB →
      rrfScore k kwB vecB ≤ rrfScore k kwA vecA) ∧
    (∀ r : Nat, 1 ≤ r →
      rrfScore k (some r) none ≤ rrfScore k (some 1) (some 1) ∧
      rrfScore k none (some r) ≤ rrfScore k (some 1) (some 1)) := by
  constructor
  · intro kwA vecA kwB vecB hkw hvec
    exact add_le_add (rrfContrib_mono hk hkw) (rrfContrib_mono hk hvec)
  · intro r hr
    have h1 : rrfContrib k (some r) ≤ rrfContrib k (some 1) :=
      rrfContrib_mono hk (fun rb hb => ⟨1, rfl, by cases hb; exact hr⟩)
    have h2 : (0 : ℚ) ≤ rrfContrib k (some 1) := rrfContrib_nonneg hk _
    constructor
    · simp only [rrfScore, rrfContrib]
      simp only [rrfScore, rrfContrib] at h1 h2
      linarith
    · simp only [rrfScore, rrfContrib]
      simp only [rrfScore, rrfContrib] at h1 h2
      linarith

/-- C7 witness: at `k = 60`, a movie ranked 2nd/5th in the two lists
outscores one ranked 3rd in a single list, and a movie ranked #1 in both
lists outscores one ranked 4th in one list only. -/
theorem rrf_monotonic_witness :
    rrfScore 60 (some 3) none ≤ rrfScore 60 (some 2) (some 5) ∧
    rrfScore 60 (some 4) none ≤ rrfScore 60 (some 1) (some 1) := by
  constructor
  · exact (rrf_monotonic 60 (by norm_num)).1 (some 2) (some 5) (some 3) none
      (fun rb hb => ⟨2, rfl, by cases hb; omega⟩)
      (fun rb hb => by cases hb)
  · exact ((rrf_monotonic 60 (by norm_num)).2 4 (by omega)).1

/-! ## C8 -/

/-- C8: exclusion correctness of the modelled search pipeline — whenever a
genre is excluded by the parsed intent of the query (e.g. the query says
"no horror"), no movie in the search results carries that genre. -/
theorem specSearch_exclusion (catalog : List SpecMovie) (q g : String)
    (m : SpecMovie) (hg : g ∈ (parseIntent q).excludedGenres)
    (hm : m ∈ specSearch catalog q) : g ∉ m.genres := by
  intro hmem
  have h := List.mem_filter.mp hm
  have hall := h.2
  simp only [Bool.and_eq_true, List.all_eq_true] at hall
  have hg' := hall.2 g hg
  rw [Bool.not_eq_true', ← Bool.not_eq_true, List.contains_iff_exists_mem_beq]
    at hg'
  exact hg' ⟨g, hmem, by simp⟩

/-- C8 witness (Scenario C): for the query "sci-fi, no horror" against a
two-movie catalog, "horror" is excluded by the parsed intent, the sci-fi
movie is returned and indeed carries no horror genre, and the movie tagged
both sci-fi and horror is excluded from the results. -/
theorem specSearch_exclusion_witness :
    ("horror" ∈ (parseIntent "sci-fi, no horror").excludedGenres ∧
     scMovieA ∈ specSearch [scMovieA, scMovieB] "sci-fi, no horror" ∧
     scMovieB ∉ specSearch [scMovieA, scMovieB] "sci-fi, no horror") ∧
    "horror" ∉ scMovieA.genres :=
  ⟨⟨by decide, by decide, by decide⟩,
   specSearch_exclusion [scMovieA, scMovieB] "sci-fi, no horror" "horror"
     scMovieA (by decide) (by decide)⟩

/-! ## C9 -/

/-- C9: `applyFilters` returns an order-preserving subsequence of its input
containing exactly the movies that match the search string (empty search
matches everything; otherwise the lowercased space-joined concatenation of
title, profile fields, tones, themes, similar films, cultural context and
discussion topics must contain the search string) and carry every selected
tone and every selected theme. -/
theorem applyFilters_characterization (arr : List Movie) (q : String)
    (tones themes : List String) :
    (applyFilters arr q tones themes).Sublist arr ∧
    (∀ m, m ∈ applyFilters arr q tones themes ↔
      m ∈ arr ∧ (q = "" ∨ q.data <:+: hayOf m) ∧
      (∀ t ∈ tones, t ∈ m.emotional_tone) ∧
      (∀ t ∈ themes, t ∈ m.themes)) := by
  constructor
  · exact List.filter_sublist _
  · intro m
    simp [applyFilters, filterPred, List.mem_filter, and_assoc]

/-! ## C10 -/

/-- C10: `escapeHtml` output never contains a raw `<`, `>`, `"` or `'` —
each such input character (and every `&`) is replaced by its HTML entity,
so the output introduces no markup delimiters in text or quoted-attribute
position. -/
theorem escapeHtml_no_delimiters (s : String) (c : Char)
    (hc : c ∈ (escapeHtml s).data) :
    c ≠ '<' ∧ c ≠ '>' ∧ c ≠ '"' ∧ c ≠ '\'' := by
  simp only [escapeHtml, List.mem_flatMap] at hc
  obtain ⟨a, -, hca⟩ := hc
  unfold escapeHtmlChar at hca
  split_ifs at hca with h1 h2 h3 h4 h5
  · fin_cases hca <;> decide
  · fin_cases hca <;> decide
  · fin_cases hca <;> decide
  · fin_cases hca <;> decide
  · fin_cases hca <;> decide
  · simp only [List.mem_singleton] at hca
    subst hca
    exact ⟨h2, h3, h4, h5⟩

/-- C10 witness: a concrete evaluation of the theorem. -/
theorem escapeHtml_no_delimiters_witness :
    ('a' ∈ (escapeHtml "a<b>'c\"").data) ∧
    ('a' ≠ '<' ∧ 'a' ≠ '>' ∧ 'a' ≠ '"' ∧ 'a' ≠ '\'') :=
  ⟨by decide, escapeHtml_no_delimiters "a<b>'c\"" 'a' (by decide)⟩

/-! ## Whitespace machinery for `makeKey` (C6) -/

theorem jsToLower_cases (c : Char) :
    jsToLower c = c ∨ jsToLower c ∈ ['a','b','c','d','e','f','g','h','i','j',
      'k','l','m','n','o','p','q','r','s','t','u','v','w','x','y','z'] := by
  unfold jsToLower
  split <;> first | (right ; decide) | (left ; rfl)

theorem jsToLower_lower_fixed {c : Char}
    (h : c ∈ ['a','b','c','d','e','f','g','h','i','j','k','l','m','n','o','p',
      'q','r','s','t','u','v','w','x','y','z']) : jsToLower c = c := by
  fin_cases h <;> rfl

theorem jsToLower_idem (c : Char) : jsToLower (jsToLower c) = jsToLower c := by
  rcases jsToLower_cases c with h | h
  · rw [h]; exact h
  · exact jsToLower_lower_fixed h

theorem jsToLower_ascii {c : Char} (h : c.toNat < 128) :
    (jsToLower c).toNat < 128 := by
  unfold jsToLower
  split <;> first | decide | exact h

theorem jsNFKD_ascii {c : Char} (h : c.toNat < 128) : jsNFKD c = [c] := by
  rw [jsNFKD, if_neg]
  intro he
  subst he
  exact absurd h (by decide)

theorem collapseWs_mem {c : Char} : ∀ {l : List Char},
    c ∈ collapseWs l → c ∈ l ∨ c = ' '
  | [], h => by simp [collapseWs] at h
  | [a], h => by
    simp only [collapseWs] at h
    split at h <;> simp_all
  | a :: b :: rest, h => by
    simp only [collapseWs] at h
    split at h
    · rcases collapseWs_mem h with h' | h'
      · exact Or.inl (List.mem_cons_of_mem _ h')
      · exact Or.inr h'
    · rcases List.mem_cons.mp h with h' | h'
      · subst h'
        split <;> simp_all
      · rcases collapseWs_mem h' with h'' | h''
        · exact Or.inl (List.mem_cons_of_mem _ h'')
        · exact Or.inr h''

theorem collapseWs_ws_space {c : Char} : ∀ {l : List Char},
    c ∈ collapseWs l → isJsWs c = true → c = ' '
  | [], h, _ => by simp [collapseWs] at h
  | [a], h, hw => by
    simp only [collapseWs] at h
    split at h <;> simp_all
  | a :: b :: rest, h, hw => by
    simp only [collapseWs] at h
    split at h
    · exact collapseWs_ws_space h hw
    · rcases List.mem_cons.mp h with h' | h'
      · subst h'
        split at hw <;> simp_all
      · exact collapseWs_ws_space h' hw

theorem collapseWs_head_of_not_ws {b : Char} (hb : isJsWs b = false)
    (rest : List Char) : (collapseWs (b :: rest)).head? = some b := by
  cases rest with
  | nil => simp [collapseWs, hb]
  | cons c r => simp [collapseWs, hb]

theorem collapseWs_chain : ∀ (l : List Char), List.Chain' NoWsPair (collapseWs l)
  | [] => by simp [collapseWs]
  | [a] => by
    simp only [collapseWs]
    split <;> simp
  | a :: b :: rest => by
    simp only [collapseWs]
    split
    · exact collapseWs_chain (b :: rest)
    · rename_i hab
      rw [Bool.and_eq_true] at hab
      apply List.chain'_cons'.mpr
      refine ⟨?_, collapseWs_chain (b :: rest)⟩
      intro y hy
      by_cases hbws : isJsWs b = true
      · have haws : isJsWs a = false := by
          cases h : isJsWs a
          · rfl
          · exact absurd ⟨h, hbws⟩ hab
        rw [if_neg (by simp [haws])]
        intro ⟨h1, _⟩
        rw [haws] at h1
        exact Bool.false_ne_true h1
      · have hbws' : isJsWs b = false := by
          cases h : isJsWs b
          · rfl
          · exact absurd h hbws
        rw [collapseWs_head_of_not_ws hbws' rest] at hy
        cases hy
        intro ⟨_, h2⟩
        rw [hbws'] at h2
        exact Bool.false_ne_true h2

theorem collapseWs_fixed : ∀ {l : List Char},
    (∀ c ∈ l, isJsWs c = true → c = ' ') → List.Chain' NoWsPair l →
    collapseWs l = l
  | [], _, _ => rfl
  | [a], hws, _ => by
    simp only [collapseWs]
    split
    · rename_i h
      rw [hws a (by simp) h]
    · rfl
  | a :: b :: rest, hws, hch => by
    have hpair : NoWsPair a b := (List.chain'_cons.mp hch).1
    have htail : List.Chain' NoWsPair (b :: rest) := (List.chain'_cons.mp hch).2
    have htl : collapseWs (b :: rest) = b :: rest :=
      collapseWs_fixed (fun c hc => hws c (List.mem_cons_of_mem _ hc)) htail
    simp only [collapseWs]
    rw [if_neg (by intro h; rw [Bool.and_eq_true] at h; exact hpair h)]
    rw [htl]
    congr 1
    split
    · rename_i h
      exact (hws a (by simp) h).symm
    · rfl

theorem mem_of_mem_trimWs {c : Char} {l : List Char} (h : c ∈ trimWs l) :
    c ∈ l := by
  simp only [trimWs, List.mem_reverse] at h
  have h1 := (List.dropWhile_suffix isJsWs).subset h
  rw [List.mem_reverse] at h1
  exact (List.dropWhile_suffix isJsWs).subset h1

theorem head?_dropWhile_ws {p : Char → Bool} : ∀ {l : List Char} {c : Char},
    (l.dropWhile p).head? = some c → p c = false
  | [], c, h => by simp at h
  | a :: as, c, h => by
    rw [List.dropWhile_cons] at h
    split at h
    · exact head?_dropWhile_ws h
    · rename_i hpa
      simp only [List.head?_cons, Option.some.injEq] at h
      subst h
      simpa using hpa

theorem chain'_flip_of_chain' {R : Char → Char → Prop}
    (hsym : ∀ a b, R a b → R b a) {l : List Char}
    (h : List.Chain' R l) : List.Chain' R l.reverse := by
  rw [List.chain'_reverse]
  exact h.imp (fun a b hab => hsym a b hab)

theorem trimWs_chain {l : List Char} (h : List.Chain' NoWsPair l) :
    List.Chain' NoWsPair (trimWs l) := by
  have hsym : ∀ a b, NoWsPair a b → NoWsPair b a := by
    intro a b hab ⟨x, y⟩
    exact hab ⟨y, x⟩
  apply chain'_flip_of_chain' hsym
  apply List.Chain'.suffix _ (List.dropWhile_suffix isJsWs)
  apply chain'_flip_of_chain' hsym
  exact List.Chain'.suffix h (List.dropWhile_suffix isJsWs)

theorem trimWs_head_not_ws {l : List Char} {c : Char}
    (h : (trimWs l).head? = some c) : isJsWs c = false := by
  rw [trimWs, List.head?_reverse] at h
  have hne : ((l.dropWhile isJsWs).reverse.dropWhile isJsWs) ≠ [] := by
    intro he
    rw [he] at h
    simp at h
  obtain ⟨t, ht⟩ := List.dropWhile_suffix (l := (l.dropWhile isJsWs).reverse) isJsWs
  have h2 : ((l.dropWhile isJsWs).reverse).getLast? = some c := by
    conv_lhs => rw [← ht]
    rw [List.getLast?_append_of_ne_nil _ hne]
    exact h
  rw [List.getLast?_reverse] at h2
  exact head?_dropWhile_ws h2

theorem trimWs_getLast_not_ws {l : List Char} {c : Char}
    (h : (trimWs l).getLast? = some c) : isJsWs c = false := by
  rw [trimWs, List.getLast?_reverse] at h
  exact head?_dropWhile_ws h

theorem dropWhile_eq_self_of_head {l : List Char}
    (h : ∀ c, l.head? = some c → isJsWs c = false) : l.dropWhile isJsWs = l := by
  cases l with
  | nil => rfl
  | cons a as =>
    rw [List.dropWhile_cons, if_neg]
    simp [h a rfl]

theorem trimWs_fixed {l : List Char}
    (hh : ∀ c, l.head? = some c → isJsWs c = false)
    (hl : ∀ c, l.getLast? = some c → isJsWs c = false) : trimWs l = l := by
  rw [trimWs, dropWhile_eq_self_of_head hh, dropWhile_eq_self_of_head
    (by intro c hc; rw [List.head?_reverse] at hc; exact hl c hc),
    List.reverse_reverse]

theorem map_id_of_mem {f : Char → Char} : ∀ {l : List Char},
    (∀ a ∈ l, f a = a) → l.map f = l
  | [], _ => rfl
  | a :: as, h => by
    rw [List.map_cons, h a (by simp), map_id_of_mem (fun b hb => h b (by simp [hb]))]

theorem flatMap_id_of_mem {f : Char → List Char} : ∀ {l : List Char},
    (∀ a ∈ l, f a = [a]) → l.flatMap f = l
  | [], _ => rfl
  | a :: as, h => by
    rw [List.flatMap_cons, h a (by simp),
      flatMap_id_of_mem (fun b hb => h b (by simp [hb]))]
    rfl

/-- Every character of the first pass (lowercase, NFKD, strip marks) over an
ASCII list is ASCII and fixed by a further `toLowerCase`. -/
theorem firstPass_mem {l : List Char} (h : ∀ c ∈ l, c.toNat < 128) {c : Char}
    (hc : c ∈ ((l.map jsToLower).flatMap jsNFKD).filter
      (fun c => !isCombiningMark c)) :
    c.toNat < 128 ∧ jsToLower c = c := by
  have hc' := List.mem_of_mem_filter hc
  rw [List.mem_flatMap] at hc'
  obtain ⟨a, ha, hca⟩ := hc'
  rw [List.mem_map] at ha
  obtain ⟨a₀, ha₀, rfl⟩ := ha
  have hasc : (jsToLower a₀).toNat < 128 := jsToLower_ascii (h a₀ ha₀)
  rw [jsNFKD_ascii hasc, List.mem_singleton] at hca
  subst hca
  exact ⟨hasc, jsToLower_idem a₀⟩

theorem makeKeyL_idem_ascii {l : List Char} (h : ∀ c ∈ l, c.toNat < 128) :
    makeKeyL (makeKeyL l) = makeKeyL l := by
  have hTdef : makeKeyL l = trimWs (collapseWs
      (((l.map jsToLower).flatMap jsNFKD).filter
        (fun c => !isCombiningMark c))) := rfl
  have hT : ∀ c ∈ makeKeyL l, c.toNat < 128 ∧ jsToLower c = c := by
    intro c hc
    rw [hTdef] at hc
    have hcc := mem_of_mem_trimWs hc
    rcases collapseWs_mem hcc with hcf | hsp
    · exact firstPass_mem h hcf
    · subst hsp
      exact ⟨by decide, by decide⟩
  have hwsT : ∀ c ∈ makeKeyL l, isJsWs c = true → c = ' ' := by
    intro c hc hw
    rw [hTdef] at hc
    exact collapseWs_ws_space (mem_of_mem_trimWs hc) hw
  have hchT : List.Chain' NoWsPair (makeKeyL l) := by
    rw [hTdef]
    exact trimWs_chain (collapseWs_chain _)
  have h1 : (makeKeyL l).map jsToLower = makeKeyL l :=
    map_id_of_mem (fun a ha => (hT a ha).2)
  have h2 : (makeKeyL l).flatMap jsNFKD = makeKeyL l :=
    flatMap_id_of_mem (fun a ha => jsNFKD_ascii (hT a ha).1)
  have h3 : (makeKeyL l).filter (fun c => !isCombiningMark c) = makeKeyL l :=
    List.filter_eq_self.mpr (fun a ha => by
      have := (hT a ha).1
      simp only [isCombiningMark, Bool.not_eq_true']
      simp only [Bool.and_eq_false_iff]
      left
      simp only [decide_eq_false_iff_not]
      omega)
  have h4 : collapseWs (makeKeyL l) = makeKeyL l := collapseWs_fixed hwsT hchT
  have h5 : trimWs (makeKeyL l) = makeKeyL l := by
    apply trimWs_fixed
    · intro c hc
      rw [hTdef] at hc
      exact trimWs_head_not_ws hc
    · intro c hc
      rw [hTdef] at hc
      exact trimWs_getLast_not_ws hc
  calc makeKeyL (makeKeyL l)
      = trimWs (collapseWs (makeKeyL l)) := by rw [makeKeyL, h1, h2, h3]
    _ = trimWs (makeKeyL l) := by rw [h4]
    _ = makeKeyL l := h5

/-! ## C6 -/

/-- C6 counterexample: `makeKey` is not idempotent on full Unicode input —
for the modifier letter 'ᴬ' (U+1D2C, caseless, NFKD-decomposing to 'A'),
the NFKD step reintroduces an uppercase letter after the lowercasing step,
so a second application lowercases it further:
`makeKey 'ᴬ' = "A"` but `makeKey (makeKey 'ᴬ') = "a"`. -/
theorem makeKey_not_idempotent :
    makeKey (makeKey "ᴬ") ≠ makeKey "ᴬ" := by decide

/-- C6 (amended): `makeKey` is idempotent on ASCII strings — the
lowercasing, NFKD, diacritic stripping, whitespace collapsing and trimming
reach a fixed point after one application whenever the NFKD step cannot
reintroduce uppercase letters (in particular for all-ASCII titles). -/
theorem makeKey_idem_ascii (s : String) (h : ∀ c ∈ s.data, c.toNat < 128) :
    makeKey (makeKey s) = makeKey s :=
  congrArg String.mk (makeKeyL_idem_ascii h)

/-- C6 witness: a concrete ASCII evaluation of the amended theorem. -/
theorem makeKey_idem_ascii_witness :
    (∀ c ∈ ("  Hello   WORLD  cafe ").data, c.toNat < 128) ∧
    makeKey (makeKey "  Hello   WORLD  cafe ") =
      makeKey "  Hello   WORLD  cafe " :=
  ⟨by decide, makeKey_idem_ascii "  Hello   WORLD  cafe " (by decide)⟩

/-! ## C5 -/

/-- A throwing filter over a mapped list with a never-throwing callback
computes the plain filter. -/
theorem filterO_map_eq {α β : Type} (F : α → β) (p : β → Option Bool)
    (g : α → Bool) :
    ∀ (l : List α), (∀ a ∈ l, p (F a) = some (g a)) →
    filterO p (l.map F) = some ((l.filter g).map F)
  | [], _ => rfl
  | a :: as, h => by
    simp only [List.map_cons, filterO, h a (by simp),
      filterO_map_eq F p g as (fun b hb => h b (by simp [hb]))]
    cases hg : g a <;> simp [List.filter_cons, hg]

/-- On a normalized movie the JavaScript evaluation of the `applyFilters`
callback never throws and agrees with the total model. -/
theorem filterPredObj_toObj (q : String) (tones themes : List String)
    (m : Movie) :
    filterPredObj q tones themes (toObj m) =
      some (filterPred q tones themes m) := by
  have hhay : hayObjOf (toObj m) = some (hayOf m) := rfl
  have het : (toObj m).emotional_tone = some m.emotional_tone := rfl
  have hthm : (toObj m).themes = some m.themes := rfl
  simp only [filterPredObj, filterPred, hhay, het, hthm]
  cases hq : (q == "") <;>
    cases hs : decide (q.data <:+: hayOf m) <;>
      cases he : tones.isEmpty <;>
        cases ha : tones.all (fun t => m.emotional_tone.contains t) <;>
          cases hthe : themes.isEmpty <;>
            cases hth : themes.all (fun t => m.themes.contains t) <;>
              simp_all [List.isEmpty_iff] <;>
                (rw [if_neg (by push_neg; exact ha)]
                 simp only [Option.some.injEq, List.all_eq_true,
                   decide_eq_true_eq]
                 exact hth)

theorem applyFilters_never_throws_aux {raws : List MovieObj} {q : String}
    {tones themes : List String} :
    applyFiltersObj (raws.map (fun r => toObj (normalizeMovie r)))
        q tones themes =
      some ((raws.filter
        (fun r => filterPred q tones themes (normalizeMovie r))).map
        (fun r => toObj (normalizeMovie r))) :=
  filterO_map_eq _ _ _ raws (fun a _ => filterPredObj_toObj q tones themes
    (normalizeMovie a))

/-- C5: the search never rejects input — under JavaScript evaluation (a
thrown `TypeError` modelled as `none`) `applyFilters` completes on the
empty catalog with an empty result list and no exception, and on every
catalog of normalized records (raw records with any fields absent, which
`normalizeMovie` defaults to empty strings/arrays) it completes for every
query string and filter state, agreeing with the total model. -/
theorem applyFilters_never_throws :
    (∀ (q : String) (tones themes : List String),
      applyFiltersObj [] q tones themes = some []) ∧
    (∀ (raws : List MovieObj) (q : String) (tones themes : List String),
      applyFiltersObj (raws.map (fun r => toObj (normalizeMovie r)))
          q tones themes =
        some ((raws.filter
          (fun r => filterPred q tones themes (normalizeMovie r))).map
          (fun r => toObj (normalizeMovie r)))) ∧
    (∀ (q : String) (tones themes : List String),
      applyFilters [] q tones themes = []) :=
  ⟨fun _ _ _ => rfl,
   fun _ _ _ _ => applyFilters_never_throws_aux,
   fun _ _ _ => rfl⟩

end Subplot
